import Mathlib

/-!
Shallow embedding of the conversation core of the tg-listener repository
(packages conv, config, handler) and proofs of the specification claims.

Go strings are modelled as lists of Unicode scalar values (Lean Char);
Go string equality coincides with equality of these lists because UTF-8
encoding is injective on scalar sequences.  Go time.Time values are
modelled as integers (nanoseconds); time.Time.After is strict greater-than.
Go maps are modelled as association lists with first-match lookup and
replace-on-insert; Go int64 identifiers are modelled as Int.
-/

/-- Model of a Go string: its sequence of Unicode scalar values. -/
def GoStr := List Char
deriving DecidableEq, Inhabited

instance : BEq GoStr := inferInstanceAs (BEq (List Char))

instance : LawfulBEq GoStr := inferInstanceAs (LawfulBEq (List Char))

/-- Converts a Lean string literal into the Go string model. -/
def gs (s : String) : GoStr := s.data

instance : Append GoStr := ⟨fun a b => List.append a b⟩

instance : HAppend GoStr (List Char) GoStr := ⟨fun a b => List.append a b⟩

instance : HAppend (List Char) GoStr GoStr := ⟨fun a b => List.append a b⟩

/-- Go strings.HasPrefix, on the scalar-sequence model. -/
def isPfx : GoStr → GoStr → Bool
  | [], _ => true
  | _ :: _, [] => false
  | a :: as, b :: bs => a == b && isPfx as bs

/-- Go strings.TrimPrefix: drops the prefix when present, otherwise identity. -/
def goTrimPfx (pre l : GoStr) : GoStr :=
  if isPfx pre l then List.drop pre.length l else l

/-- Character class of Go unicode.IsSpace (the white-space code points). -/
def goIsSpace (c : Char) : Bool :=
  [9, 10, 11, 12, 13, 32, 0x85, 0xA0, 0x1680,
   0x2000, 0x2001, 0x2002, 0x2003, 0x2004, 0x2005, 0x2006, 0x2007,
   0x2008, 0x2009, 0x200A, 0x2028, 0x2029, 0x202F, 0x205F, 0x3000].contains c.toNat

/-- Characters of the cutset used by strings.Trim(s, quote-apostrophe). -/
def isQuoteCut (c : Char) : Bool := c == '"' || c.toNat == 39

/-- Drops trailing characters satisfying p (right half of strings.Trim*). -/
def trimRightBy (p : Char → Bool) (l : GoStr) : GoStr :=
  (List.dropWhile p l.reverse).reverse

/-- Go strings.TrimSpace. -/
def goTrimSpace (l : GoStr) : GoStr :=
  trimRightBy goIsSpace (List.dropWhile goIsSpace l)

/-- Go strings.Trim with the quote-apostrophe cutset. -/
def goTrimQuotes (l : GoStr) : GoStr :=
  trimRightBy isQuoteCut (List.dropWhile isQuoteCut l)

/-- Go strings.Split for a two-character separator a b: splits on
non-overlapping occurrences, scanning left to right. -/
def goSplit2 (a b : Char) : GoStr → List GoStr
  | [] => [[]]
  | [c] => [[c]]
  | c1 :: c2 :: rest =>
    if c1 = a ∧ c2 = b then
      [] :: goSplit2 a b rest
    else
      match goSplit2 a b (c2 :: rest) with
      | [] => [[c1]]
      | h :: t => (c1 :: h) :: t

/-- Whether the two-character separator a b occurs somewhere in the string. -/
def hasPair (a b : Char) : GoStr → Bool
  | [] => false
  | [_] => false
  | c1 :: c2 :: rest => (c1 = a ∧ c2 = b : Bool) || hasPair a b (c2 :: rest)

/-- Number of bytes of the UTF-8 encoding of one scalar value. -/
def utf8Size (c : Char) : Nat :=
  if c.toNat < 0x80 then 1
  else if c.toNat < 0x800 then 2
  else if c.toNat < 0x10000 then 3
  else 4

/-- Go len(s): the byte length of the UTF-8 encoding. -/
def goByteLen (l : GoStr) : Nat := (l.map utf8Size).sum

/-- Hexadecimal digit test, matching both the character loop in
validateAddress and the digit set of strconv.ParseUint with base 16. -/
def isHexDigitChar (c : Char) : Bool :=
  (48 ≤ c.toNat && c.toNat ≤ 57) ||
  (97 ≤ c.toNat && c.toNat ≤ 102) ||
  (65 ≤ c.toNat && c.toNat ≤ 70)

/-- Numeric value of a hexadecimal digit. -/
def hexDigitVal (c : Char) : Nat :=
  if 48 ≤ c.toNat && c.toNat ≤ 57 then c.toNat - 48
  else if 97 ≤ c.toNat && c.toNat ≤ 102 then c.toNat - 87
  else if 65 ≤ c.toNat && c.toNat ≤ 70 then c.toNat - 55
  else 0

/-- Value of a string of hexadecimal digits. -/
def hexValue (l : GoStr) : Nat := l.foldl (fun acc c => 16 * acc + hexDigitVal c) 0

/-- Model of strconv.ParseUint(s, 16, 64): succeeds exactly on a nonempty
all-hex-digit string whose value fits in 64 bits. -/
def goParseUintHex64 (l : GoStr) : Option Nat :=
  if l ≠ [] ∧ l.all isHexDigitChar then
    let n := hexValue l
    if n < 2 ^ 64 then some n else none
  else none

/-- Conversion int64 to rune (int32) in Go: two's-complement truncation. -/
def wrap32 (x : Int) : Int := (x + 2 ^ 31) % 2 ^ 32 - 2 ^ 31

/-- Scalar value produced by Go string(rune(x)): the wrapped code point when
it is a valid Unicode scalar value, and U+FFFD otherwise. -/
def runeCp (x : Int) : Int :=
  let r := wrap32 x
  if (0 ≤ r ∧ r < 0xD800) ∨ (0xDFFF < r ∧ r ≤ 0x10FFFF) then r else 0xFFFD

/-- conv.conversationKey: string(rune(userID)) + colon + string(rune(chatID)),
modelled as the scalar-value sequence of the resulting Go string
(58 is the colon code point). -/
def conversationKey (userID chatID : Int) : List Int :=
  [runeCp userID, 58, runeCp chatID]

/-- Value stored in a conversation's data map (Go interface value):
a string, an integer, or some other dynamic value. -/
inductive GoVal where
  | str (s : GoStr)
  | int (n : Int)
  | other
deriving DecidableEq

/-- conv.HistoryEntry: step id, raw input, timestamp. -/
structure HistoryEntry where
  stepID : GoStr
  input : GoStr
  timestamp : Int
deriving DecidableEq

/-- conv.ConversationState. -/
inductive ConversationState where
  | idle
  | waiting
  | processing
  | completed
  | cancelled
deriving DecidableEq

/-- Association-list model of a Go map: first-match lookup. -/
def mapLookup {κ α : Type} [BEq κ] (m : List (κ × α)) (k : κ) : Option α :=
  (m.find? (fun p => p.1 == k)).map (fun p => p.2)

/-- Insert-or-replace into the association-list model of a Go map. -/
def mapInsert {κ α : Type} [BEq κ] (m : List (κ × α)) (k : κ) (v : α) : List (κ × α) :=
  (m.filter (fun p => ¬ p.1 == k)) ++ [(k, v)]

/-- conv.Conversation: one user's live session state. -/
structure Conv where
  userID : Int
  chatID : Int
  topicID : Int
  flowID : GoStr
  stepID : GoStr
  state : ConversationState
  data : List (GoStr × GoVal)
  keyboardMsgID : Int
  createdAt : Int
  updatedAt : Int
  expiresAt : Int
  history : List HistoryEntry
deriving DecidableEq

/-- conv.NewConversation at instant now. -/
def newConversation (now userID chatID : Int) (topicID : Int)
    (flowID stepID : GoStr) (ttl : Int) : Conv :=
  { userID := userID, chatID := chatID, topicID := topicID,
    flowID := flowID, stepID := stepID, state := .waiting,
    data := [], keyboardMsgID := 0,
    createdAt := now, updatedAt := now, expiresAt := now + ttl,
    history := [] }

/-- Conversation.Set at instant now. -/
def convSet (now : Int) (c : Conv) (k : GoStr) (v : GoVal) : Conv :=
  { c with data := mapInsert c.data k v, updatedAt := now }

/-- Conversation.GetString: empty string when the key is absent or the
stored value is not a string (the failed type assertion). -/
def convGetString (c : Conv) (k : GoStr) : GoStr :=
  match mapLookup c.data k with
  | some (.str s) => s
  | _ => []

/-- Conversation.SetStep at instant now. -/
def convSetStep (now : Int) (c : Conv) (stepID : GoStr) : Conv :=
  { c with stepID := stepID, updatedAt := now }

/-- Conversation.AddHistory at instant now. -/
def convAddHistory (now : Int) (c : Conv) (stepID input : GoStr) : Conv :=
  { c with history := c.history ++ [⟨stepID, input, now⟩] }

/-- Conversation.GetPreviousStep: the step id of the second-to-last history
entry, or the empty string when fewer than two entries exist. -/
def getPreviousStep (c : Conv) : GoStr :=
  if 2 ≤ c.history.length then
    (c.history.getD (c.history.length - 2) ⟨[], [], 0⟩).stepID
  else []

/-- Conversation.IsExpired at instant now: time.Now().After(ExpiresAt). -/
def convIsExpired (now : Int) (c : Conv) : Bool := c.expiresAt < now

/-- config.ValidationConfig. -/
structure ValidationConfig where
  vtype : GoStr
  pattern : GoStr
  errorMsg : GoStr
  min : GoStr
  max : GoStr
  minLength : Int
  maxLength : Int
  custom : GoStr
deriving DecidableEq

/-- config.BranchConfig. -/
structure BranchConfig where
  condition : GoStr
  nextStep : GoStr
  handler : GoStr
deriving DecidableEq

/-- config.StepConfig (keyboard and prompt-rendering fields are carried as
plain data; they are never interpreted by the verified core). -/
structure StepConfig where
  id : GoStr
  promptText : GoStr
  inputType : GoStr
  validation : Option ValidationConfig
  nextStep : GoStr
  branches : List BranchConfig
  onEnter : GoStr
  onComplete : GoStr
  storeAs : GoStr
  skipIf : GoStr
deriving DecidableEq

/-- config.FlowConfig. -/
structure FlowConfig where
  id : GoStr
  name : GoStr
  initialStep : GoStr
  steps : List (GoStr × StepConfig)
  ttl : Int
deriving DecidableEq

/-- FlowConfig.GetStep: map lookup, none when absent. -/
def flowGetStep (f : FlowConfig) (stepID : GoStr) : Option StepConfig :=
  mapLookup f.steps stepID

/-- config.Config restricted to the flow table used by the engine. -/
structure Config where
  flows : List (GoStr × FlowConfig)

/-- Config.GetFlow: map lookup, none when absent. -/
def configGetFlow (cfg : Config) (id : GoStr) : Option FlowConfig :=
  mapLookup cfg.flows id

/-- Registered step-completion handler: receives the session and returns the
session state it leaves behind together with an optional error message. -/
def StepHandler := Conv → Conv × Option GoStr

/-- Registered custom validator: raw input and session to optional error. -/
def ValidatorFn := GoStr → Conv → Option GoStr

/-- Model of the Go regexp library consumed by the engine: pattern and input
to none on compile error, otherwise the match verdict.  The library is
external to the repository and enters the embedding as a parameter. -/
def RegexLib := GoStr → GoStr → Option Bool

/-- conv.FlowEngine: configuration plus the name-keyed registries and the
optional pluggable condition evaluator. -/
structure FlowEngine where
  config : Option Config
  stepHandlers : List (GoStr × StepHandler)
  validators : List (GoStr × ValidatorFn)
  conditionEvaluator : Option (Conv → GoStr → Bool)

/-- FlowEngine.GetValidator. -/
def getValidator (e : FlowEngine) (name : GoStr) : Option ValidatorFn :=
  mapLookup e.validators name

/-- FlowEngine.GetFlow: nil configuration yields none. -/
def engineGetFlow (e : FlowEngine) (flowID : GoStr) : Option FlowConfig :=
  match e.config with
  | none => none
  | some cfg => configGetFlow cfg flowID

/-- FlowEngine.GetStep. -/
def engineGetStep (e : FlowEngine) (flowID stepID : GoStr) : Option StepConfig :=
  match engineGetFlow e flowID with
  | none => none
  | some flow => flowGetStep flow stepID

/-- conv.getErrorMsg: the configured override when nonempty, else the default. -/
def getErrorMsg (configured dflt : GoStr) : GoStr :=
  if configured ≠ [] then configured else dflt

/-- Decimal digit test. -/
def isDigitChar (c : Char) : Bool := 48 ≤ c.toNat && c.toNat ≤ 57

/-- Value of a string of decimal digits. -/
def digitsVal (l : GoStr) : Nat := l.foldl (fun acc c => 10 * acc + (c.toNat - 48)) 0

/-- Parses the mantissa part digits-point-digits with at least one digit. -/
def parseMantissa (l : GoStr) : Option ℚ :=
  let intPart := l.takeWhile isDigitChar
  let rest := l.drop intPart.length
  match rest with
  | [] => if intPart = [] then none else some (digitsVal intPart)
  | c :: frac =>
    if c.toNat = 46 ∧ frac.all isDigitChar ∧ (intPart ≠ [] ∨ frac ≠ []) then
      some ((digitsVal intPart : ℚ) + (digitsVal frac : ℚ) / 10 ^ frac.length)
    else none

/-- Model of strconv.ParseFloat(s, 64) restricted to finite decimal syntax
(optional sign, decimal mantissa, optional decimal exponent), with the value
taken exactly in the rationals.  Float rounding, infinity, NaN and hex-float
syntax are outside the model; no claim depends on them. -/
def goParseFloatDec (l : GoStr) : Option ℚ :=
  let sgnRest : ℚ × GoStr :=
    match l with
    | c :: t =>
      if c.toNat = 43 then (1, t) else if c.toNat = 45 then (-1, t) else (1, l)
    | [] => (1, l)
  let sgn := sgnRest.1
  let l1 := sgnRest.2
  let mant := l1.takeWhile (fun c => isDigitChar c || c.toNat = 46)
  let expPart := l1.drop mant.length
  match parseMantissa mant with
  | none => none
  | some mv =>
    match expPart with
    | [] => some (sgn * mv)
    | e :: et =>
      if e.toNat = 101 ∨ e.toNat = 69 then
        let esgnRest : Int × GoStr :=
          match et with
          | c :: t =>
            if c.toNat = 43 then (1, t) else if c.toNat = 45 then (-1, t) else (1, et)
          | [] => (1, et)
        if esgnRest.2 ≠ [] ∧ esgnRest.2.all isDigitChar then
          some (sgn * mv * (10 : ℚ) ^ (esgnRest.1 * (digitsVal esgnRest.2 : Int)))
        else none
      else none

/-- FlowEngine.validateNumber: parse failure, then the optional min bound,
then the optional max bound. -/
def validateNumber (input : GoStr) (v : ValidationConfig) : Option GoStr :=
  match goParseFloatDec input with
  | none => some (getErrorMsg v.errorMsg (gs "Please enter a valid number"))
  | some num =>
    let minErr : Option GoStr :=
      if v.min ≠ [] then
        match goParseFloatDec v.min with
        | some mn =>
          if num < mn then
            some (getErrorMsg v.errorMsg (gs "Number cannot be less than " ++ v.min))
          else none
        | none => none
      else none
    match minErr with
    | some e => some e
    | none =>
      if v.max ≠ [] then
        match goParseFloatDec v.max with
        | some mx =>
          if mx < num then
            some (getErrorMsg v.errorMsg (gs "Number cannot be greater than " ++ v.max))
          else none
        | none => none
      else none

/-- FlowEngine.validateAddress: byte length 42 and 0x prefix, then the
64-bit hexadecimal parse with the character-by-character fallback on its
failure.  Byte-slicing input at 2 equals scalar-slicing because the 0x
prefix consists of two one-byte characters. -/
def validateAddress (input : GoStr) (v : ValidationConfig) : Option GoStr :=
  let msg := getErrorMsg v.errorMsg (gs "Please enter a valid Ethereum address")
  if goByteLen input ≠ 42 ∨ ¬ isPfx (gs "0x") input then some msg
  else
    let rest := input.drop 2
    match goParseUintHex64 rest with
    | some _ => none
    | none => if rest.all isHexDigitChar then none else some msg

/-- The fixed email pattern of FlowEngine.validateEmail. -/
def emailPattern : GoStr := gs "^[a-zA-Z0-9._%+-]+@[a-zA-Z0-9.-]+\\.[a-zA-Z]\x7b2,\x7d$"

/-- FlowEngine.validateEmail: regexp match against the fixed pattern, the
library error discarded as a non-match. -/
def validateEmail (lib : RegexLib) (input : GoStr) (v : ValidationConfig) : Option GoStr :=
  if (lib emailPattern input).getD false then none
  else some (getErrorMsg v.errorMsg (gs "Please enter a valid email address"))

/-- FlowEngine.validateRegex: empty pattern always valid; a library error is
a configuration error distinct from a validation failure. -/
def validateRegex (lib : RegexLib) (input : GoStr) (v : ValidationConfig) : Option GoStr :=
  if v.pattern = [] then none
  else
    match lib v.pattern input with
    | none => some (gs "Validation rule configuration error")
    | some true => none
    | some false => some (getErrorMsg v.errorMsg (gs "Input format is incorrect"))

/-- FlowEngine.validateCustom: empty or unregistered validator name is a
no-op. -/
def validateCustom (e : FlowEngine) (input : GoStr) (v : ValidationConfig) (conv : Conv) :
    Option GoStr :=
  if v.custom = [] then none
  else
    match getValidator e v.custom with
    | none => none
    | some f => f input conv

/-- FlowEngine.ValidateInput: dispatch on the validation type tag; a missing
step, a missing rule, and an unrecognized tag are all valid. -/
def validateInput (lib : RegexLib) (e : FlowEngine) (conv : Conv) (input : GoStr) :
    Option GoStr :=
  match engineGetStep e conv.flowID conv.stepID with
  | none => none
  | some step =>
    match step.validation with
    | none => none
    | some v =>
      if v.vtype == gs "number" then validateNumber input v
      else if v.vtype == gs "address" then validateAddress input v
      else if v.vtype == gs "email" then validateEmail lib input v
      else if v.vtype == gs "regex" then validateRegex lib input v
      else if v.vtype == gs "custom" then validateCustom e input v conv
      else none

/-- FlowEngine.simpleEvaluate: the built-in condition evaluator over stored
session data. -/
def simpleEvaluate (conv : Conv) (cond : GoStr) : Bool :=
  match goSplit2 '=' '=' cond with
  | [p0, p1] =>
    let key := goTrimPfx (gs "data.") (goTrimSpace p0)
    let expected := goTrimQuotes (goTrimSpace p1)
    convGetString conv key == expected
  | _ =>
    match goSplit2 '!' '=' cond with
    | [q0, q1] =>
      let key := goTrimPfx (gs "data.") (goTrimSpace q0)
      let expected := goTrimQuotes (goTrimSpace q1)
      !(convGetString conv key == expected)
    | _ => true

/-- FlowEngine.EvaluateCondition: empty condition is true; a registered
custom evaluator takes precedence over the built-in one. -/
def evaluateCondition (e : FlowEngine) (conv : Conv) (cond : GoStr) : Bool :=
  if cond = [] then true
  else
    match e.conditionEvaluator with
    | some f => f conv cond
    | none => simpleEvaluate conv cond

/-- FlowEngine.evaluateBranchCondition: conditions with the input marker and
a single equality are compared against the raw input; everything else goes
to simpleEvaluate directly. -/
def evaluateBranchCondition (e : FlowEngine) (conv : Conv) (cond input : GoStr) : Bool :=
  if isPfx (gs "input") cond then
    match goSplit2 '=' '=' cond with
    | [_, p1] => input == goTrimQuotes (goTrimSpace p1)
    | _ => simpleEvaluate conv cond
  else simpleEvaluate conv cond

/-- FlowEngine.DetermineNextStep: first branch whose condition holds wins,
else the step's explicit next step; a missing step yields the empty id. -/
def determineNextStep (e : FlowEngine) (conv : Conv) (input : GoStr) : GoStr :=
  match engineGetStep e conv.flowID conv.stepID with
  | none => []
  | some step =>
    match step.branches.find? (fun br => evaluateBranchCondition e conv br.condition input) with
    | some br => br.nextStep
    | none => step.nextStep

/-- FlowEngine.ExecuteStepHandler: unregistered name is a no-op. -/
def executeStepHandler (e : FlowEngine) (conv : Conv) (name : GoStr) : Conv × Option GoStr :=
  match mapLookup e.stepHandlers name with
  | none => (conv, none)
  | some h => h conv

/-- Observable lifecycle callback invocations, in program order.  The
installed event marks the map write that makes a session visible to Get. -/
inductive MEvent where
  | endHook (c : Conv)
  | startHook (c : Conv)
  | installed (c : Conv)
  | stepChangeHook (c : Conv) (fromStep toStep : GoStr)
deriving DecidableEq

/-- conv.Manager: the key-to-session index, the default TTL, and whether
each lifecycle callback has been set. -/
structure Manager where
  conversations : List (List Int × Conv)
  defaultTTL : Int
  hasOnStart : Bool
  hasOnEnd : Bool
  hasOnStepChange : Bool
deriving DecidableEq

/-- Manager.End: removes the session when present and fires the end hook
once for it. -/
def mEnd (m : Manager) (userID chatID : Int) : Manager × List MEvent :=
  let key := conversationKey userID chatID
  match mapLookup m.conversations key with
  | none => (m, [])
  | some conv =>
    ({ m with conversations := m.conversations.filter (fun p => ¬ p.1 == key) },
     if m.hasOnEnd then [.endHook conv] else [])

/-- Manager.Get at instant now: none when absent; an expired session is
ended through Manager.End and none is returned. -/
def mGet (m : Manager) (now userID chatID : Int) : Option Conv × Manager × List MEvent :=
  let key := conversationKey userID chatID
  match mapLookup m.conversations key with
  | none => (none, m, [])
  | some conv =>
    if convIsExpired now conv then
      let r := mEnd m userID chatID
      (none, r.1, r.2)
    else (some conv, m, [])

/-- Manager.Start at instant now: non-positive ttl is replaced by the
default; an existing session's end hook fires before the new session is
installed; the start hook fires after installation. -/
def mStart (m : Manager) (now userID chatID : Int) (topicID : Int)
    (flowID initialStep : GoStr) (ttl : Int) : Conv × Manager × List MEvent :=
  let ttl2 := if ttl ≤ 0 then m.defaultTTL else ttl
  let key := conversationKey userID chatID
  let endEvs : List MEvent :=
    match mapLookup m.conversations key with
    | some old => if m.hasOnEnd then [.endHook old] else []
    | none => []
  let conv := newConversation now userID chatID topicID flowID initialStep ttl2
  let m2 := { m with conversations := mapInsert m.conversations key conv }
  (conv, m2, endEvs ++ [.installed conv] ++ (if m.hasOnStart then [.startHook conv] else []))

/-- Manager.ChangeStep at instant now: no-op when Get yields none, else the
step mutation followed by the step-change hook. -/
def mChangeStep (m : Manager) (now userID chatID : Int) (newStep : GoStr) :
    Manager × List MEvent :=
  match mGet m now userID chatID with
  | (none, m2, evs) => (m2, evs)
  | (some conv, m2, evs) =>
    let oldStep := conv.stepID
    let conv2 := convSetStep now conv newStep
    let m3 := { m2 with
      conversations := mapInsert m2.conversations (conversationKey userID chatID) conv2 }
    (m3, evs ++ (if m.hasOnStepChange then [.stepChangeHook conv2 oldStep newStep] else []))

/-- Manager.Cleanup at instant now: ends every expired session and returns
the number removed.  The source iterates the map in unspecified order; the
model fixes list order, which no claim depends on. -/
def mCleanup (m : Manager) (now : Int) : Manager × Nat × List MEvent :=
  let expired := m.conversations.filter (fun p => convIsExpired now p.2)
  let kept := m.conversations.filter (fun p => ¬ convIsExpired now p.2)
  ({ m with conversations := kept }, expired.length,
   if m.hasOnEnd then expired.map (fun p => MEvent.endHook p.2) else [])

/-- Observable router effects, in program order.  displayStep marks a call
of the step-redisplay trigger, mainMenuNav entry into main-menu
navigation, handlerRun a step-completion handler invocation. -/
inductive RAction where
  | answerCallback
  | sendMessage (chatID threadID : Int) (text : GoStr)
  | deleteMessage (chatID msgID : Int)
  | displayStep
  | mainMenuNav
  | handlerRun (name : GoStr)
deriving DecidableEq

/-- Router.handleMainMenu: acknowledge, end any active session, trigger the
internal main-menu handler. -/
def handleMainMenu (m : Manager) (userID chatID : Int) :
    Manager × List RAction × List MEvent :=
  let r := mEnd m userID chatID
  (r.1, [.answerCallback, .mainMenuNav], r.2)

/-- Router.handleBack at instant now: with a previous step, change to it and
redisplay; otherwise end the session and fall back to main-menu
navigation. -/
def handleBack (m : Manager) (now userID chatID : Int) :
    Manager × List RAction × List MEvent :=
  let g := mGet m now userID chatID
  match g.1 with
  | some c =>
    let prev := getPreviousStep c
    if prev ≠ [] then
      let r := mChangeStep g.2.1 now userID chatID prev
      (r.1, [.answerCallback, .displayStep], g.2.2 ++ r.2)
    else
      let r := mEnd g.2.1 userID chatID
      let mm := handleMainMenu r.1 userID chatID
      (mm.1, [.answerCallback] ++ mm.2.1, g.2.2 ++ r.2 ++ mm.2.2)
  | none =>
    let mm := handleMainMenu g.2.1 userID chatID
    (mm.1, [.answerCallback] ++ mm.2.1, g.2.2 ++ mm.2.2)

/-- Result of Router.handleConversationMessage: the manager state, the state
of the session object held by the router, the outward effects, and the hook
events. -/
structure HCMResult where
  manager : Manager
  conv : Conv
  actions : List RAction
  events : List MEvent
deriving DecidableEq

/-- Router.handleConversationMessage at instant now.  The session object and
the map entry under its key alias the same Go object, so every mutation of
the session is written through to the index. -/
def handleConversationMessage (lib : RegexLib) (e : FlowEngine) (m : Manager)
    (now fromID chatID threadID msgID : Int) (text : GoStr) (c : Conv) : HCMResult :=
  match engineGetStep e c.flowID c.stepID with
  | none => ⟨m, c, [], []⟩
  | some step =>
    if ¬ (step.inputType == gs "text" || step.inputType == gs "any") then ⟨m, c, [], []⟩
    else
      match validateInput lib e c text with
      | some err => ⟨m, c, [.sendMessage chatID threadID (gs "❌ " ++ err)], []⟩
      | none =>
        let key := conversationKey fromID c.chatID
        let c1 := if step.storeAs ≠ [] then convSet now c step.storeAs (.str text) else c
        let c2 := convAddHistory now c1 c.stepID text
        let m1 := { m with conversations := mapInsert m.conversations key c2 }
        let acts0 := [RAction.deleteMessage chatID msgID]
        if step.onComplete ≠ [] then
          let h := executeStepHandler e c2 step.onComplete
          let m2 := { m1 with conversations := mapInsert m1.conversations key h.1 }
          ⟨m2, h.1, acts0 ++ [.handlerRun step.onComplete], []⟩
        else
          let next := determineNextStep e c2 text
          if next ≠ [] then
            let r := mChangeStep m1 now fromID c.chatID next
            let c3 := if convIsExpired now c2 then c2 else convSetStep now c2 next
            ⟨r.1, c3, acts0 ++ [.displayStep], r.2⟩
          else ⟨m1, c2, acts0, []⟩

/-! Helper lemmas about the map model. -/

theorem mapLookup_insert_self {κ α : Type} [BEq κ] [LawfulBEq κ]
    (m : List (κ × α)) (k : κ) (v : α) : mapLookup (mapInsert m k v) k = some v := by
  induction m with
  | nil => simp [mapLookup, mapInsert, List.find?]
  | cons x t ih =>
    by_cases hx : x.1 == k
    · simpa [mapLookup, mapInsert, List.filter, hx] using ih
    · simp only [mapInsert, List.filter] at ih ⊢
      simp only [hx, Bool.not_false, if_true, decide_not]
      simpa [mapLookup, List.find?, hx] using ih

theorem mapLookup_removeAll {κ α : Type} [BEq κ] [LawfulBEq κ]
    (m : List (κ × α)) (k : κ) :
    mapLookup (m.filter (fun p => ¬ p.1 == k)) k = none := by
  unfold mapLookup
  rw [Option.map_eq_none']
  rw [List.find?_eq_none]
  intro x hx
  rw [List.mem_filter] at hx
  have h2 : ¬ (x.1 == k) = true := by simpa using hx.2
  simpa using h2

/-- End always leaves no session under the ended key. -/
theorem mEnd_lookup_none (m : Manager) (uid cid : Int) :
    mapLookup (mEnd m uid cid).1.conversations (conversationKey uid cid) = none := by
  unfold mEnd
  cases h : mapLookup m.conversations (conversationKey uid cid) with
  | none =>
    simp only [h]
  | some conv =>
    simp only [h]
    exact mapLookup_removeAll m.conversations (conversationKey uid cid)

/-- C1 (code_bug evidence).  The composite key is not injective: the raw
numeric cast truncates 64-bit identifiers to 32 bits, so the distinct user
identifiers 4294967296 and 0 produce identical keys, and a Start for one
pair overwrites the session of the other: after starting flow f for user 0
and then flow g for user 4294967296 in chat 7, Get for user 0 returns the
flow-g session. -/
theorem c1_conversation_key_collision :
    conversationKey 4294967296 7 = conversationKey 0 7 ∧
    (4294967296 : Int) ≠ 0 ∧
    Option.map Conv.flowID
      (mGet (mStart (mStart ⟨[], 1800, false, false, false⟩
                0 0 7 0 (gs "f") (gs "s") 100).2.1
              0 4294967296 7 0 (gs "g") (gs "t") 100).2.1 0 0 7).1
      = some (gs "g") := by
  refine ⟨by decide, by decide, by decide⟩

/-- Concrete flow for the C2 counterexample: one branch with a data
condition and a default next step. -/
def stepC2 : StepConfig :=
  ⟨gs "s1", [], gs "text", none, gs "s3",
   [⟨gs "flag == \"on\"", gs "s2", []⟩], [], [], [], []⟩

/-- Concrete flow table for the C2 counterexample. -/
def flowC2 : FlowConfig := ⟨gs "f", [], gs "s1", [(gs "s1", stepC2)], 0⟩

/-- Engine for the C2 counterexample: a custom condition evaluator is
registered and rejects every condition. -/
def engC2 : FlowEngine :=
  ⟨some ⟨[(gs "f", flowC2)]⟩, [], [], some (fun _ _ => false)⟩

/-- Session for the C2 counterexample, with flag stored as on. -/
def convC2 : Conv :=
  ⟨1, 2, 0, gs "f", gs "s1", .waiting, [(gs "flag", .str (gs "on"))], 0, 0, 0, 100, []⟩

/-- C2 (counterexample).  The branch condition is not of the input form and
the registered custom evaluator — which the general condition evaluator
prefers — evaluates it to false, so under the claim the branch must not
match and the default s3 must be returned; DetermineNextStep nevertheless
returns the branch target s2, because branch evaluation bypasses the
custom evaluator. -/
theorem c2_branch_bypasses_custom_evaluator :
    determineNextStep engC2 convC2 (gs "x") = gs "s2" ∧
    isPfx (gs "input") (gs "flag == \"on\"") = false ∧
    evaluateCondition engC2 convC2 (gs "flag == \"on\"") = false ∧
    Option.map StepConfig.nextStep
      (engineGetStep engC2 convC2.flowID convC2.stepID) = some (gs "s3") := by
  refine ⟨by decide, by decide, by decide, by decide⟩

/-- C2 (amended).  Branch conditions that are not of the input form are
evaluated by the built-in simple evaluator directly, bypassing any
registered custom evaluator; the general condition evaluator itself does
use a registered custom evaluator in preference to the built-in one on
nonempty conditions. -/
theorem c2_branch_condition_delegation :
    (∀ (e : FlowEngine) (conv : Conv) (cond input : GoStr),
       isPfx (gs "input") cond = false →
       evaluateBranchCondition e conv cond input = simpleEvaluate conv cond) ∧
    (∀ (f : Conv → GoStr → Bool) (e : FlowEngine) (conv : Conv) (cond : GoStr),
       e.conditionEvaluator = some f → cond ≠ [] →
       evaluateCondition e conv cond = f conv cond) ∧
    (∀ (e : FlowEngine) (conv : Conv) (cond : GoStr),
       e.conditionEvaluator = none → cond ≠ [] →
       evaluateCondition e conv cond = simpleEvaluate conv cond) := by
  refine ⟨?_, ?_, ?_⟩
  · intro e conv cond input h
    unfold evaluateBranchCondition
    simp [h]
  · intro f e conv cond hf hne
    unfold evaluateCondition
    rw [hf]
    simp [hne]
  · intro e conv cond hf hne
    unfold evaluateCondition
    rw [hf]
    simp [hne]

/-- Witness for the amended C2 theorem at concrete inputs. -/
theorem c2_branch_condition_delegation_witness :
    evaluateBranchCondition engC2 convC2 (gs "flag == \"on\"") (gs "x")
        = simpleEvaluate convC2 (gs "flag == \"on\"") ∧
    evaluateCondition engC2 convC2 (gs "flag == \"on\"") = false :=
  ⟨c2_branch_condition_delegation.1 engC2 convC2 (gs "flag == \"on\"") (gs "x") (by decide),
   by
    rw [c2_branch_condition_delegation.2.1 (fun _ _ => false) engC2 convC2
      (gs "flag == \"on\"") rfl (by decide)]⟩

/-- The first list element satisfying p, when all earlier ones fail p, is
the find? result. -/
theorem findFirstTrue {α : Type} (p : α → Bool) :
    ∀ (l : List α) (i : Nat) (hi : i < l.length),
      p (l.get ⟨i, hi⟩) = true →
      (∀ (j : Nat) (hj : j < l.length), j < i → p (l.get ⟨j, hj⟩) = false) →
      l.find? p = some (l.get ⟨i, hi⟩)
  | [], i, hi => by simp at hi
  | a :: t, 0, hi => by
    intro h _
    simp only [List.get] at h ⊢
    simp [List.find?, h]
  | a :: t, i + 1, hi => by
    intro h hj
    have ha : p a = false := hj 0 (Nat.succ_pos _) (Nat.succ_pos i)
    have ih := findFirstTrue p t i (Nat.lt_of_succ_lt_succ hi) h
      (fun j hjl hlt => hj (j + 1) (Nat.succ_lt_succ hjl) (Nat.succ_lt_succ hlt))
    simp only [List.get] at ih ⊢
    simp [List.find?, ha, ih]

/-- C6.  DetermineNextStep returns the target of the first branch, in
declared order, whose condition evaluates true, and the step's explicit
next step when every branch condition is false. -/
theorem c6_determine_next_step_first_match :
    ∀ (e : FlowEngine) (conv : Conv) (input : GoStr) (step : StepConfig),
      engineGetStep e conv.flowID conv.stepID = some step →
      ((∀ (i : Nat) (hi : i < step.branches.length),
          evaluateBranchCondition e conv (step.branches.get ⟨i, hi⟩).condition input = true →
          (∀ (j : Nat) (hj : j < step.branches.length), j < i →
             evaluateBranchCondition e conv (step.branches.get ⟨j, hj⟩).condition input = false) →
          determineNextStep e conv input = (step.branches.get ⟨i, hi⟩).nextStep) ∧
       ((∀ br ∈ step.branches,
           evaluateBranchCondition e conv br.condition input = false) →
        determineNextStep e conv input = step.nextStep)) := by
  intro e conv input step hstep
  constructor
  · intro i hi htrue hbefore
    have hf := findFirstTrue (fun br => evaluateBranchCondition e conv br.condition input)
      step.branches i hi htrue hbefore
    simp only [determineNextStep, hstep, hf]
  · intro hall
    have hf : step.branches.find?
        (fun br => evaluateBranchCondition e conv br.condition input) = none :=
      List.find?_eq_none.mpr (fun br hbr => by simp [hall br hbr])
    simp only [determineNextStep, hstep, hf]

/-- Step for the C6 witness: two input branches and a default next step. -/
def stepC6 : StepConfig :=
  ⟨gs "s1", [], gs "text", none, gs "s9",
   [⟨gs "input == \"a\"", gs "s2", []⟩, ⟨gs "input == \"b\"", gs "s3", []⟩],
   [], [], [], []⟩

/-- Flow table for the C6 witness. -/
def flowC6 : FlowConfig := ⟨gs "f", [], gs "s1", [(gs "s1", stepC6)], 0⟩

/-- Engine for the C6 witness. -/
def engC6 : FlowEngine := ⟨some ⟨[(gs "f", flowC6)]⟩, [], [], none⟩

/-- Session for the C6 witness. -/
def convC6 : Conv := ⟨1, 2, 0, gs "f", gs "s1", .waiting, [], 0, 0, 0, 100, []⟩

/-- Witness for C6: with branches input a to s2 and input b to s3 and
input a, the first branch wins and s2 is returned although the default
next step is s9. -/
theorem c6_witness :
    determineNextStep engC6 convC6 (gs "a") = gs "s2" ∧ stepC6.nextStep = gs "s9" := by
  have h := (c6_determine_next_step_first_match engC6 convC6 (gs "a") stepC6 (by decide)).1
    0 (by decide) (by decide) (fun j hj hlt => absurd hlt (Nat.not_lt_zero j))
  exact ⟨by rw [h]; decide, by decide⟩

/-- C10.  A validation rule whose type tag is none of number, address,
email, regex, custom — the advertised required tag included — accepts every
input, exactly as when no rule is configured. -/
theorem c10_unknown_validation_type_accepts :
    ∀ (lib : RegexLib) (e : FlowEngine) (conv : Conv) (input : GoStr) (step : StepConfig),
      engineGetStep e conv.flowID conv.stepID = some step →
      ((∀ v : ValidationConfig, step.validation = some v →
          ¬ (v.vtype = gs "number" ∨ v.vtype = gs "address" ∨ v.vtype = gs "email" ∨
             v.vtype = gs "regex" ∨ v.vtype = gs "custom") →
          validateInput lib e conv input = none) ∧
       (step.validation = none → validateInput lib e conv input = none)) := by
  intro lib e conv input step hstep
  constructor
  · intro v hv hnot
    rw [not_or, not_or, not_or, not_or] at hnot
    have h1 : (v.vtype == gs "number") = false := by simpa using hnot.1
    have h2 : (v.vtype == gs "address") = false := by simpa using hnot.2.1
    have h3 : (v.vtype == gs "email") = false := by simpa using hnot.2.2.1
    have h4 : (v.vtype == gs "regex") = false := by simpa using hnot.2.2.2.1
    have h5 : (v.vtype == gs "custom") = false := by simpa using hnot.2.2.2.2
    simp only [validateInput, hstep, hv, h1, h2, h3, h4, h5, Bool.false_eq_true, if_false]
  · intro hv
    simp only [validateInput, hstep, hv]

/-- Step for the C10 witness: a rule with the advertised required tag. -/
def stepC10 : StepConfig :=
  ⟨gs "s1", [], gs "text",
   some ⟨gs "required", [], [], [], [], 0, 0, []⟩, [], [], [], [], [], []⟩

/-- Flow table for the C10 witness. -/
def flowC10 : FlowConfig := ⟨gs "f", [], gs "s1", [(gs "s1", stepC10)], 0⟩

/-- Engine for the C10 witness. -/
def engC10 : FlowEngine := ⟨some ⟨[(gs "f", flowC10)]⟩, [], [], none⟩

/-- Session for the C10 witness. -/
def convC10 : Conv := ⟨1, 2, 0, gs "f", gs "s1", .waiting, [], 0, 0, 0, 100, []⟩

/-- Witness for C10: a required rule accepts the empty input. -/
theorem c10_witness :
    validateInput (fun _ _ => none) engC10 convC10 [] = none :=
  (c10_unknown_validation_type_accepts (fun _ _ => none) engC10 convC10 [] stepC10
    rfl).1 ⟨gs "required", [], [], [], [], 0, 0, []⟩ rfl (by decide)

/-- Element at the index just before a final two-element suffix. -/
theorem getD_before_last_two {α : Type} (d : α) :
    ∀ (pre : List α) (e1 e2 : α), (pre ++ [e1, e2]).getD pre.length d = e1
  | [], _, _ => rfl
  | a :: pre, e1, e2 => by
    simp only [List.cons_append, List.length_cons, List.getD_cons_succ]
    exact getD_before_last_two d pre e1 e2

/-- C9.  GetPreviousStep returns the step id of the second-to-last history
entry and the empty string when fewer than two entries exist; back
navigation on a session with an empty previous step ends the session and
triggers main-menu navigation instead of redisplaying a step. -/
theorem c9_previous_step_and_back :
    (∀ (c : Conv) (pre : List HistoryEntry) (e1 e2 : HistoryEntry),
       c.history = pre ++ [e1, e2] → getPreviousStep c = e1.stepID) ∧
    (∀ c : Conv, c.history.length < 2 → getPreviousStep c = []) ∧
    (∀ (m : Manager) (now userID chatID : Int) (c : Conv),
       (mGet m now userID chatID).1 = some c →
       getPreviousStep c = [] →
       (mapLookup (handleBack m now userID chatID).1.conversations
          (conversationKey userID chatID) = none ∧
        (handleBack m now userID chatID).2.1
          = [.answerCallback, .answerCallback, .mainMenuNav] ∧
        RAction.displayStep ∉ (handleBack m now userID chatID).2.1)) := by
  refine ⟨?_, ?_, ?_⟩
  · intro c pre e1 e2 h
    have hlen : (pre ++ [e1, e2]).length = pre.length + 2 := by
      simp [List.length_append]
    have hc : 2 ≤ pre.length + 2 := by omega
    simp only [getPreviousStep, h, hlen, hc, if_true, Nat.add_sub_cancel]
    rw [getD_before_last_two]
  · intro c h
    have : ¬ 2 ≤ c.history.length := by omega
    simp [getPreviousStep, this]
  · intro m now userID chatID c hg hprev
    refine ⟨?_, ?_, ?_⟩
    · simp only [handleBack, hg, hprev, ne_eq, not_true_eq_false, if_false, handleMainMenu]
      exact mEnd_lookup_none _ userID chatID
    · simp only [handleBack, hg, hprev, ne_eq, not_true_eq_false, if_false, handleMainMenu]
      rfl
    · simp only [handleBack, hg, hprev, ne_eq, not_true_eq_false, if_false, handleMainMenu]
      decide

/-- Session for the C9 witness, with the three-entry history of the claim. -/
def convC9 : Conv :=
  ⟨1, 2, 0, gs "f", gs "s3", .waiting, [], 0, 0, 0, 100,
   [⟨gs "s1", gs "x", 0⟩, ⟨gs "s2", gs "y", 0⟩, ⟨gs "s3", gs "z", 0⟩]⟩

/-- Witness for C9: on the concrete history s1, s2, s3 the previous step is
s2, and a single-entry history yields the empty id. -/
theorem c9_witness :
    getPreviousStep convC9 = gs "s2" ∧
    getPreviousStep ⟨1, 2, 0, gs "f", gs "s1", .waiting, [], 0, 0, 0, 100,
      [⟨gs "s1", gs "x", 0⟩]⟩ = [] :=
  ⟨c9_previous_step_and_back.1 convC9 [⟨gs "s1", gs "x", 0⟩] ⟨gs "s2", gs "y", 0⟩
     ⟨gs "s3", gs "z", 0⟩ rfl,
   c9_previous_step_and_back.2.1 _ (by decide)⟩

/-- C3.  A stored session whose expiry instant lies strictly before now is
lazily ended by Get: none is returned, the session is removed, the end hook
fires exactly once, a repeated Get does nothing further, and the periodic
Cleanup sweep removes a stored session exactly under the same strict
predicate now greater than expires-at. -/
theorem c3_get_lazy_expiry :
    ∀ (m : Manager) (now userID chatID : Int) (conv : Conv),
      mapLookup m.conversations (conversationKey userID chatID) = some conv →
      conv.expiresAt < now →
      m.hasOnEnd = true →
      ((mGet m now userID chatID).1 = none ∧
       mapLookup (mGet m now userID chatID).2.1.conversations
         (conversationKey userID chatID) = none ∧
       (mGet m now userID chatID).2.2 = [.endHook conv] ∧
       mGet (mGet m now userID chatID).2.1 now userID chatID
         = (none, (mGet m now userID chatID).2.1, []) ∧
       (∀ (k : List Int) (c2 : Conv), (k, c2) ∈ m.conversations →
          (((k, c2) ∉ (mCleanup m now).1.conversations) ↔ c2.expiresAt < now))) := by
  intro m now userID chatID conv hlook hexp hend
  have hbool : convIsExpired now conv = true := by
    simp [convIsExpired, hexp]
  have hget2 : mapLookup (mGet m now userID chatID).2.1.conversations
      (conversationKey userID chatID) = none := by
    simp only [mGet, hlook, hbool, if_true]
    exact mEnd_lookup_none m userID chatID
  have hnone : ∀ m2 : Manager,
      mapLookup m2.conversations (conversationKey userID chatID) = none →
      mGet m2 now userID chatID = (none, m2, []) := by
    intro m2 h2
    simp only [mGet, h2]
  refine ⟨?_, hget2, ?_, ?_, ?_⟩
  · simp only [mGet, hlook, hbool, if_true]
  · simp only [mGet, hlook, hbool, if_true, mEnd, hend, if_true]
  · exact hnone _ hget2
  · intro k c2 hmem
    constructor
    · intro hnot
      by_contra hlt
      apply hnot
      simp only [mCleanup, List.mem_filter]
      exact ⟨hmem, by simp [convIsExpired, hlt]⟩
    · intro hlt hmemf
      simp only [mCleanup, List.mem_filter] at hmemf
      have h2 := hmemf.2
      simp [convIsExpired, hlt] at h2

/-- Manager for the C3 witness with one session for user 1 chat 2 that
expired at instant 10. -/
def convC3 : Conv := ⟨1, 2, 0, gs "f", gs "s1", .waiting, [], 0, 0, 0, 10, []⟩

/-- Manager for the C3 witness. -/
def mgrC3 : Manager := ⟨[(conversationKey 1 2, convC3)], 1800, true, true, true⟩

/-- Witness for C3: at instant 11 the expired session is removed, the end
hook fires once, and the repeated Get fires nothing. -/
theorem c3_witness :
    (mGet mgrC3 11 1 2).1 = none ∧
    (mGet mgrC3 11 1 2).2.2 = [.endHook convC3] ∧
    mGet (mGet mgrC3 11 1 2).2.1 11 1 2 = (none, (mGet mgrC3 11 1 2).2.1, []) := by
  have h := c3_get_lazy_expiry mgrC3 11 1 2 convC3 (by decide) (by decide) (by decide)
  exact ⟨h.1, h.2.2.1, h.2.2.2.1⟩

/-- C4.  Start on a key holding a session fires the end hook on the old
session strictly before the install event that makes the new session
visible and before the start hook; the new session carries the given flow
id and initial step; a non-positive ttl is replaced by the default, and the
new session is the one found by a subsequent lookup. -/
theorem c4_start_replaces_old :
    ∀ (m : Manager) (now userID chatID : Int) (topicID : Int)
      (flowID initialStep : GoStr) (ttl : Int) (old : Conv),
      mapLookup m.conversations (conversationKey userID chatID) = some old →
      m.hasOnEnd = true →
      m.hasOnStart = true →
      ((mStart m now userID chatID topicID flowID initialStep ttl).2.2
         = [.endHook old,
            .installed (mStart m now userID chatID topicID flowID initialStep ttl).1,
            .startHook (mStart m now userID chatID topicID flowID initialStep ttl).1] ∧
       (mStart m now userID chatID topicID flowID initialStep ttl).1.flowID = flowID ∧
       (mStart m now userID chatID topicID flowID initialStep ttl).1.stepID = initialStep ∧
       mapLookup
         (mStart m now userID chatID topicID flowID initialStep ttl).2.1.conversations
         (conversationKey userID chatID)
         = some (mStart m now userID chatID topicID flowID initialStep ttl).1 ∧
       (ttl ≤ 0 →
         (mStart m now userID chatID topicID flowID initialStep ttl).1.expiresAt
           = now + m.defaultTTL)) := by
  intro m now userID chatID topicID flowID initialStep ttl old hlook hend hstart
  refine ⟨?_, ?_, ?_, ?_, ?_⟩
  · simp only [mStart, hlook, hend, hstart, if_true]
    rfl
  · simp only [mStart]
    rfl
  · simp only [mStart]
    rfl
  · simp only [mStart]
    exact mapLookup_insert_self m.conversations (conversationKey userID chatID) _
  · intro httl
    simp only [mStart, newConversation, httl, if_true]

/-- Manager for the C4 witness with one live session for user 1 chat 2. -/
def mgrC4 : Manager :=
  ⟨[(conversationKey 1 2, ⟨1, 2, 0, gs "f", gs "s1", .waiting, [], 0, 0, 0, 50, []⟩)],
   1800, true, true, true⟩

/-- Witness for C4 at concrete inputs with a non-positive ttl. -/
theorem c4_witness :
    (mStart mgrC4 20 1 2 0 (gs "g") (gs "t") 0).2.2
      = [.endHook ⟨1, 2, 0, gs "f", gs "s1", .waiting, [], 0, 0, 0, 50, []⟩,
         .installed (mStart mgrC4 20 1 2 0 (gs "g") (gs "t") 0).1,
         .startHook (mStart mgrC4 20 1 2 0 (gs "g") (gs "t") 0).1] ∧
    (mStart mgrC4 20 1 2 0 (gs "g") (gs "t") 0).1.flowID = gs "g" ∧
    (mStart mgrC4 20 1 2 0 (gs "g") (gs "t") 0).1.expiresAt = 20 + 1800 := by
  have h := c4_start_replaces_old mgrC4 20 1 2 0 (gs "g") (gs "t") 0
    ⟨1, 2, 0, gs "f", gs "s1", .waiting, [], 0, 0, 0, 50, []⟩ (by decide) (by decide) (by decide)
  exact ⟨h.1, h.2.1, by rw [h.2.2.2.2 (by decide)]; rfl⟩

/-- C5.  When the current step's validation rule rejects a text input, the
error message is sent back to the user prefixed with the failure marker and
nothing else happens: the manager, the session, and the event trace are
left untouched. -/
theorem c5_validation_failure_no_mutation :
    ∀ (lib : RegexLib) (e : FlowEngine) (m : Manager)
      (now fromID chatID threadID msgID : Int) (text : GoStr) (c : Conv)
      (step : StepConfig) (err : GoStr),
      engineGetStep e c.flowID c.stepID = some step →
      (step.inputType == gs "text" || step.inputType == gs "any") = true →
      validateInput lib e c text = some err →
      handleConversationMessage lib e m now fromID chatID threadID msgID text c
        = ⟨m, c, [.sendMessage chatID threadID (gs "❌ " ++ err)], []⟩ := by
  intro lib e m now fromID chatID threadID msgID text c step err hstep hkind hval
  simp only [handleConversationMessage, hstep, hkind, hval]
  simp

/-- Step for the C5 witness: a text step with an address validation rule. -/
def stepC5 : StepConfig :=
  ⟨gs "s1", [], gs "text", some ⟨gs "address", [], [], [], [], 0, 0, []⟩,
   [], [], [], [], gs "addr", []⟩

/-- Flow table for the C5 witness. -/
def flowC5 : FlowConfig := ⟨gs "f", [], gs "s1", [(gs "s1", stepC5)], 0⟩

/-- Engine for the C5 witness. -/
def engC5 : FlowEngine := ⟨some ⟨[(gs "f", flowC5)]⟩, [], [], none⟩

/-- Session for the C5 witness. -/
def convC5 : Conv := ⟨1, 2, 0, gs "f", gs "s1", .waiting, [], 0, 0, 0, 100, []⟩

/-- Manager for the C5 witness. -/
def mgrC5 : Manager := ⟨[(conversationKey 1 2, convC5)], 1800, true, true, true⟩

/-- Witness for C5: the rejected input 0x123 yields only the error message
and no state change. -/
theorem c5_witness :
    handleConversationMessage (fun _ _ => none) engC5 mgrC5 7 1 2 0 9 (gs "0x123") convC5
      = ⟨mgrC5, convC5,
         [.sendMessage 2 0 (gs "❌ " ++ gs "Please enter a valid Ethereum address")], []⟩ :=
  c5_validation_failure_no_mutation (fun _ _ => none) engC5 mgrC5 7 1 2 0 9 (gs "0x123")
    convC5 stepC5 (gs "Please enter a valid Ethereum address")
    (by decide) (by decide) (by decide)

/-- Hexadecimal digits are one-byte characters. -/
theorem hex_ascii (c : Char) (h : isHexDigitChar c = true) : c.toNat < 128 := by
  simp only [isHexDigitChar, Bool.or_eq_true, Bool.and_eq_true, decide_eq_true_eq] at h
  omega

/-- On all-ASCII strings the Go byte length equals the character count. -/
theorem byteLen_ascii : ∀ l : List Char, (∀ c ∈ l, c.toNat < 128) → goByteLen l = l.length
  | [], _ => rfl
  | c :: t, h => by
    have hc : utf8Size c = 1 := by
      simp [utf8Size, h c (List.mem_cons_self c t)]
    have ht := byteLen_ascii t (fun x hx => h x (List.mem_cons_of_mem c hx))
    simp only [goByteLen, List.map_cons, List.sum_cons, List.length_cons, hc] at ht ⊢
    omega

/-- A string with the 0x prefix decomposes as zero, x, remainder. -/
theorem pfx0x_decomp (input : GoStr) (h : isPfx (gs "0x") input = true) :
    ∃ rest, input = '0' :: 'x' :: rest := by
  have hg : gs "0x" = '0' :: 'x' :: [] := rfl
  rw [hg] at h
  match input with
  | [] => simp [isPfx] at h
  | [c] =>
    simp only [isPfx, Bool.and_eq_true, beq_iff_eq] at h
    exact absurd h.2 (by decide)
  | c1 :: c2 :: rest =>
    simp only [isPfx, Bool.and_eq_true, beq_iff_eq] at h
    exact ⟨rest, by rw [h.1, h.2.1]⟩

/-- The configured-or-default error message is never empty when the default
is not. -/
theorem getErrorMsg_ne_nil (cfg d : GoStr) (hd : d ≠ []) : getErrorMsg cfg d ≠ [] := by
  unfold getErrorMsg
  split
  · assumption
  · exact hd

/-- A successful 64-bit hexadecimal parse implies an all-hex-digit string. -/
theorem parse_hex_all (l : GoStr) (n : Nat) (h : goParseUintHex64 l = some n) :
    l.all isHexDigitChar = true := by
  unfold goParseUintHex64 at h
  split at h
  · rename_i hc
    exact hc.2
  · exact absurd h (by simp)

/-- C8.  An address rule accepts an input exactly when it is 42 characters,
starts with 0x and its remaining 40 characters are hexadecimal digits of
either case; every rejection carries the configured override when present,
else the nonempty default message. -/
theorem c8_validate_address :
    ∀ (input : GoStr) (v : ValidationConfig),
      (validateAddress input v = none ↔
        (input.length = 42 ∧ isPfx (gs "0x") input = true ∧
         (input.drop 2).all isHexDigitChar = true)) ∧
      (∀ msg, validateAddress input v = some msg →
         msg = getErrorMsg v.errorMsg (gs "Please enter a valid Ethereum address") ∧
         msg ≠ []) := by
  intro input v
  have hdflt : (gs "Please enter a valid Ethereum address") ≠ [] := by decide
  have hascii : isPfx (gs "0x") input = true →
      (input.drop 2).all isHexDigitChar = true → goByteLen input = input.length := by
    intro hp hh
    obtain ⟨rest, hr⟩ := pfx0x_decomp input hp
    subst hr
    simp only [List.drop_succ_cons, List.drop_zero] at hh
    refine byteLen_ascii _ ?_
    intro c hc
    rcases hc with _ | ⟨_, hc⟩
    · decide
    rcases hc with _ | ⟨_, hc⟩
    · decide
    · exact hex_ascii c ((List.all_eq_true.mp hh) c hc)
  by_cases hguard : goByteLen input ≠ 42 ∨ ¬ isPfx (gs "0x") input = true
  · have hres : validateAddress input v
        = some (getErrorMsg v.errorMsg (gs "Please enter a valid Ethereum address")) := by
      simp only [validateAddress]
      rw [if_pos]
      simpa using hguard
    constructor
    · rw [hres]
      constructor
      · intro habs
        exact absurd habs (by simp)
      · rintro ⟨hlen, hp, hh⟩
        have hb := hascii hp hh
        rcases hguard with hg | hg
        · exact (hg (hb.trans hlen)).elim
        · exact (hg hp).elim
    · intro msg hmsg
      rw [hres] at hmsg
      have : msg = getErrorMsg v.errorMsg (gs "Please enter a valid Ethereum address") :=
        (Option.some.injEq _ _ ▸ hmsg).symm
      exact ⟨this, this ▸ getErrorMsg_ne_nil _ _ hdflt⟩
  · push_neg at hguard
    obtain ⟨hblen, hp⟩ := hguard
    obtain ⟨rest, hr⟩ := pfx0x_decomp input hp
    have hdrop : input.drop 2 = rest := by rw [hr]; rfl
    cases hparse : goParseUintHex64 rest with
    | some n =>
      have hall : rest.all isHexDigitChar = true := parse_hex_all rest n hparse
      have hres : validateAddress input v = none := by
        simp only [validateAddress]
        rw [if_neg (by simp [hblen, hp]), hdrop, hparse]
      constructor
      · rw [hres]
        have hlen : input.length = 42 := by
          rw [← hascii hp (hdrop ▸ hall)]
          exact hblen
        simp [hlen, hp, hdrop, hall]
      · intro msg hmsg
        rw [hres] at hmsg
        exact absurd hmsg (by simp)
    | none =>
      cases hall : rest.all isHexDigitChar with
      | true =>
        have hres : validateAddress input v = none := by
          simp only [validateAddress]
          rw [if_neg (by simp [hblen, hp]), hdrop, hparse]
          simp [hall]
        constructor
        · rw [hres]
          have hlen : input.length = 42 := by
            rw [← hascii hp (hdrop ▸ hall)]
            exact hblen
          simp [hlen, hp, hdrop, hall]
        · intro msg hmsg
          rw [hres] at hmsg
          exact absurd hmsg (by simp)
      | false =>
        have hres : validateAddress input v
            = some (getErrorMsg v.errorMsg (gs "Please enter a valid Ethereum address")) := by
          simp only [validateAddress]
          rw [if_neg (by simp [hblen, hp]), hdrop, hparse]
          simp [hall]
        constructor
        · rw [hres]
          constructor
          · intro habs
            exact absurd habs (by simp)
          · rintro ⟨hlen, hp2, hh⟩
            rw [hdrop] at hh
            rw [hh] at hall
            exact absurd hall (by simp)
        · intro msg hmsg
          rw [hres] at hmsg
          have : msg = getErrorMsg v.errorMsg (gs "Please enter a valid Ethereum address") :=
            (Option.some.injEq _ _ ▸ hmsg).symm
          exact ⟨this, this ▸ getErrorMsg_ne_nil _ _ hdflt⟩

/-- Validation rule for the C8 witness. -/
def vcC8 : ValidationConfig := ⟨gs "address", [], [], [], [], 0, 0, []⟩

/-- Witness for C8: forty a-characters after 0x are accepted; 0x123 and a
42-character string containing g are rejected. -/
theorem c8_witness :
    validateAddress (gs ("0x" ++ String.mk (List.replicate 40 'a'))) vcC8 = none ∧
    validateAddress (gs "0x123") vcC8 ≠ none ∧
    validateAddress (gs ("0x" ++ String.mk (List.replicate 39 'a' ++ ['g']))) vcC8 ≠ none :=
  ⟨((c8_validate_address (gs ("0x" ++ String.mk (List.replicate 40 'a'))) vcC8).1).mpr
     (by refine ⟨by decide, by decide, by decide⟩),
   fun h => by
     have := ((c8_validate_address (gs "0x123") vcC8).1).mp h
     exact absurd this.1 (by decide),
   fun h => by
     have := ((c8_validate_address
       (gs ("0x" ++ String.mk (List.replicate 39 'a' ++ ['g']))) vcC8).1).mp h
     exact absurd this.2.2 (by decide)⟩

/-- dropWhile is the identity when every element fails the predicate. -/
theorem dropWhile_all_false (p : Char → Bool) :
    ∀ l : List Char, (∀ c ∈ l, p c = false) → List.dropWhile p l = l
  | [], _ => rfl
  | c :: t, h => by
    rw [List.dropWhile_cons]
    simp [h c (List.mem_cons_self c t)]

/-- Right trim is the identity when every element fails the predicate. -/
theorem trimRightBy_all_false (p : Char → Bool) (l : List Char)
    (h : ∀ c ∈ l, p c = false) : trimRightBy p l = l := by
  unfold trimRightBy
  rw [dropWhile_all_false p l.reverse (fun c hc => h c (List.mem_reverse.mp hc))]
  exact List.reverse_reverse l

/-- Right trim removes one trailing trimmed character from an otherwise
untrimmed string. -/
theorem trimRightBy_append_one (p : Char → Bool) (a : Char) (ha : p a = true)
    (l : List Char) (h : ∀ c ∈ l, p c = false) : trimRightBy p (l ++ [a]) = l := by
  unfold trimRightBy
  rw [List.reverse_append]
  simp only [List.reverse_cons, List.reverse_nil, List.nil_append, List.singleton_append]
  rw [List.dropWhile_cons]
  simp only [ha, if_true]
  rw [dropWhile_all_false p l.reverse (fun c hc => h c (List.mem_reverse.mp hc))]
  exact List.reverse_reverse l

/-- TrimSpace of a space-free token followed by one space is the token. -/
theorem trimSpace_tok_space (key : List Char) (h : ∀ c ∈ key, goIsSpace c = false) :
    goTrimSpace (key ++ [' ']) = key := by
  cases key with
  | nil => decide
  | cons k t =>
    have hk : goIsSpace k = false := h k (List.mem_cons_self k t)
    unfold goTrimSpace
    rw [List.cons_append, List.dropWhile_cons]
    simp only [hk, Bool.false_eq_true, if_false]
    rw [← List.cons_append]
    exact trimRightBy_append_one goIsSpace ' ' (by decide) (k :: t) h

/-- TrimSpace of the quoted right-hand side drops only the leading space. -/
theorem trimSpace_value_part (value : List Char)
    (hs : ∀ c ∈ value, goIsSpace c = false) :
    goTrimSpace (' ' :: '"' :: (value ++ ['"'])) = '"' :: (value ++ ['"']) := by
  unfold goTrimSpace
  rw [List.dropWhile_cons]
  simp only [show goIsSpace ' ' = true from by decide, if_true]
  rw [List.dropWhile_cons]
  simp only [show goIsSpace '"' = false from by decide, Bool.false_eq_true, if_false]
  refine trimRightBy_all_false goIsSpace _ ?_
  intro c hc
  simp only [List.mem_cons, List.mem_append] at hc
  rcases hc with rfl | hc | rfl | h0
  · decide
  · exact hs c hc
  · decide
  · exact absurd h0 (List.not_mem_nil c)

/-- Trim of a quote-wrapped quote-free value is the value. -/
theorem trimQuotes_wrapped (value : List Char)
    (hq : ∀ c ∈ value, isQuoteCut c = false) :
    goTrimQuotes ('"' :: (value ++ ['"'])) = value := by
  cases value with
  | nil => decide
  | cons v t =>
    unfold goTrimQuotes
    rw [List.dropWhile_cons]
    simp only [show isQuoteCut '"' = true from by decide, if_true]
    rw [List.cons_append, List.dropWhile_cons]
    simp only [hq v (List.mem_cons_self v t), Bool.false_eq_true, if_false]
    rw [← List.cons_append]
    exact trimRightBy_append_one isQuoteCut '"' (by decide) (v :: t) hq

/-- A head that cannot open the separator leaves the pair search unchanged. -/
theorem hasPair_cons_ne (a b c : Char) (hc : c ≠ a) :
    ∀ l : List Char, hasPair a b (c :: l) = hasPair a b l
  | [] => by simp [hasPair]
  | d :: t => by
    simp [hasPair, hc]

/-- Elements that cannot open the separator can be peeled off the front of
the pair search. -/
theorem hasPair_append_left (a b : Char) :
    ∀ xs : List Char, (∀ c ∈ xs, c ≠ a) → ∀ ys : List Char,
      hasPair a b (xs ++ ys) = hasPair a b ys
  | [], _, ys => rfl
  | c :: xs, h, ys => by
    rw [List.cons_append, hasPair_cons_ne a b c (h c (List.mem_cons_self c xs))]
    exact hasPair_append_left a b xs (fun x hx => h x (List.mem_cons_of_mem c hx)) ys

/-- A string without the separator's opening character has no separator. -/
theorem noPair_of_noChar (a b : Char) (l : List Char) (h : ∀ c ∈ l, c ≠ a) :
    hasPair a b l = false := by
  have := hasPair_append_left a b l h []
  rw [List.append_nil] at this
  rw [this]
  rfl

/-- Split on an absent separator returns the whole string. -/
theorem split2_of_noPair (a b : Char) :
    ∀ l : List Char, hasPair a b l = false → goSplit2 a b l = [l]
  | [], _ => rfl
  | [_], _ => rfl
  | c1 :: c2 :: rest, h => by
    rw [hasPair, Bool.or_eq_false_iff] at h
    have hneg : ¬ (c1 = a ∧ c2 = b) := by
      intro hand
      have := h.1
      simp [hand.1, hand.2] at this
    rw [goSplit2, if_neg hneg, split2_of_noPair a b (c2 :: rest) h.2]

/-- Split on a separator that occurs exactly once, with opening-character
free parts on both sides, yields those two parts. -/
theorem split2_single (a b : Char) :
    ∀ xs : List Char, (∀ c ∈ xs, c ≠ a) → ∀ ys : List Char, (∀ c ∈ ys, c ≠ a) →
      goSplit2 a b (xs ++ a :: b :: ys) = [xs, ys]
  | [], _, ys, hy => by
    rw [List.nil_append, goSplit2, if_pos ⟨rfl, rfl⟩,
      split2_of_noPair a b ys (noPair_of_noChar a b ys hy)]
  | c :: xs, hx, ys, hy => by
    have hc : c ≠ a := hx c (List.mem_cons_self c xs)
    have ih := split2_single a b xs (fun x h => hx x (List.mem_cons_of_mem c h)) ys hy
    cases hxx : xs ++ a :: b :: ys with
    | nil => exact absurd hxx (by simp)
    | cons d t =>
      rw [List.cons_append, hxx, goSplit2, if_neg (fun hand => hc hand.1)]
      rw [hxx] at ih
      rw [ih]

/-- A literal token of the condition mini-language: free of the comparison
opener characters, white space, and quotes. -/
def plainTok (l : List Char) : Prop :=
  ∀ c ∈ l, c ≠ '=' ∧ c ≠ '!' ∧ goIsSpace c = false ∧ isQuoteCut c = false

/-- C7.  The built-in evaluator accepts the empty condition; it decides the
two forms key equals quoted value and key not-equals quoted value by plain
string comparison against the stored session data, stripping an optional
data dot prefix from the key with no coercion; and it returns true — fails
open — on every condition containing neither comparison separator.  The
condition lists spell key, space, the comparison operator, space, and the
value in double quotes. -/
theorem c7_simple_evaluate_builtin :
    (∀ conv : Conv, simpleEvaluate conv [] = true) ∧
    (∀ (conv : Conv) (key value : List Char), plainTok key → plainTok value →
       simpleEvaluate conv (key ++ ' ' :: '=' :: '=' :: ' ' :: '"' :: (value ++ ['"']))
         = (convGetString conv (goTrimPfx (gs "data.") key) == value)) ∧
    (∀ (conv : Conv) (key value : List Char), plainTok key → plainTok value →
       simpleEvaluate conv (key ++ ' ' :: '!' :: '=' :: ' ' :: '"' :: (value ++ ['"']))
         = !(convGetString conv (goTrimPfx (gs "data.") key) == value)) ∧
    (∀ (conv : Conv) (cond : List Char),
       hasPair '=' '=' cond = false → hasPair '!' '=' cond = false →
       simpleEvaluate conv cond = true) := by
  refine ⟨?_, ?_, ?_, ?_⟩
  · intro conv
    rfl
  · intro conv key value hk hv
    have hkSpace : ∀ c ∈ key, goIsSpace c = false := fun c hc => (hk c hc).2.2.1
    have hvSpace : ∀ c ∈ value, goIsSpace c = false := fun c hc => (hv c hc).2.2.1
    have hvQuote : ∀ c ∈ value, isQuoteCut c = false := fun c hc => (hv c hc).2.2.2
    have hxs : ∀ c ∈ key ++ [' '], c ≠ '=' := by
      intro c hc
      rcases List.mem_append.mp hc with h | h
      · exact (hk c h).1
      · rw [List.mem_singleton] at h
        subst h
        decide
    have hys : ∀ c ∈ ' ' :: '"' :: (value ++ ['"']), c ≠ '=' := by
      intro c hc
      simp only [List.mem_cons, List.mem_append] at hc
      rcases hc with rfl | rfl | h | rfl | h0
      · decide
      · decide
      · exact (hv c h).1
      · decide
      · exact absurd h0 (List.not_mem_nil c)
    have hshape : key ++ ' ' :: '=' :: '=' :: ' ' :: '"' :: (value ++ ['"'])
        = (key ++ [' ']) ++ '=' :: '=' :: (' ' :: '"' :: (value ++ ['"'])) := by
      simp
    have hsplit : goSplit2 '=' '='
        (key ++ ' ' :: '=' :: '=' :: ' ' :: '"' :: (value ++ ['"']))
        = [key ++ [' '], ' ' :: '"' :: (value ++ ['"'])] := by
      rw [hshape]
      exact split2_single '=' '=' (key ++ [' ']) hxs _ hys
    simp only [simpleEvaluate, hsplit]
    rw [trimSpace_tok_space key hkSpace, trimSpace_value_part value hvSpace,
      trimQuotes_wrapped value hvQuote]
  · intro conv key value hk hv
    have hkSpace : ∀ c ∈ key, goIsSpace c = false := fun c hc => (hk c hc).2.2.1
    have hvSpace : ∀ c ∈ value, goIsSpace c = false := fun c hc => (hv c hc).2.2.1
    have hvQuote : ∀ c ∈ value, isQuoteCut c = false := fun c hc => (hv c hc).2.2.2
    have hys : ∀ c ∈ ' ' :: '"' :: (value ++ ['"']), c ≠ '=' := by
      intro c hc
      simp only [List.mem_cons, List.mem_append] at hc
      rcases hc with rfl | rfl | h | rfl | h0
      · decide
      · decide
      · exact (hv c h).1
      · decide
      · exact absurd h0 (List.not_mem_nil c)
    have hys1 : ∀ c ∈ ' ' :: '"' :: (value ++ ['"']), c ≠ '!' := by
      intro c hc
      simp only [List.mem_cons, List.mem_append] at hc
      rcases hc with rfl | rfl | h | rfl | h0
      · decide
      · decide
      · exact (hv c h).2.1
      · decide
      · exact absurd h0 (List.not_mem_nil c)
    have hxs1 : ∀ c ∈ key ++ [' '], c ≠ '!' := by
      intro c hc
      rcases List.mem_append.mp hc with h | h
      · exact (hk c h).2.1
      · rw [List.mem_singleton] at h
        subst h
        decide
    have hxsE : ∀ c ∈ key ++ [' ', '!'], c ≠ '=' := by
      intro c hc
      rcases List.mem_append.mp hc with h | h
      · exact (hk c h).1
      · simp only [List.mem_cons] at h
        rcases h with rfl | rfl | h0
        · decide
        · decide
        · exact absurd h0 (List.not_mem_nil c)
    have h1 : hasPair '=' '=' (' ' :: '"' :: (value ++ ['"'])) = false :=
      noPair_of_noChar '=' '=' _ hys
    have h2 : hasPair '=' '=' ('=' :: ' ' :: '"' :: (value ++ ['"'])) = false := by
      have hstep : hasPair '=' '=' ('=' :: ' ' :: '"' :: (value ++ ['"']))
          = ((('=' = '=' ∧ ' ' = '=') : Bool) || hasPair '=' '=' (' ' :: '"' :: (value ++ ['"']))) :=
        rfl
      rw [hstep, h1]
      decide
    have hfull : hasPair '=' '='
        (key ++ ' ' :: '!' :: '=' :: ' ' :: '"' :: (value ++ ['"'])) = false := by
      have hsh : key ++ ' ' :: '!' :: '=' :: ' ' :: '"' :: (value ++ ['"'])
          = (key ++ [' ', '!']) ++ ('=' :: ' ' :: '"' :: (value ++ ['"'])) := by
        simp
      rw [hsh, hasPair_append_left '=' '=' (key ++ [' ', '!']) hxsE _]
      exact h2
    have hshapeNe : key ++ ' ' :: '!' :: '=' :: ' ' :: '"' :: (value ++ ['"'])
        = (key ++ [' ']) ++ '!' :: '=' :: (' ' :: '"' :: (value ++ ['"'])) := by
      simp
    have hsplitEq : goSplit2 '=' '='
        (key ++ ' ' :: '!' :: '=' :: ' ' :: '"' :: (value ++ ['"']))
        = [key ++ ' ' :: '!' :: '=' :: ' ' :: '"' :: (value ++ ['"'])] :=
      split2_of_noPair '=' '=' _ hfull
    have hsplitNe : goSplit2 '!' '='
        (key ++ ' ' :: '!' :: '=' :: ' ' :: '"' :: (value ++ ['"']))
        = [key ++ [' '], ' ' :: '"' :: (value ++ ['"'])] := by
      rw [hshapeNe]
      exact split2_single '!' '=' (key ++ [' ']) hxs1 _ hys1
    simp only [simpleEvaluate, hsplitEq, hsplitNe]
    rw [trimSpace_tok_space key hkSpace, trimSpace_value_part value hvSpace,
      trimQuotes_wrapped value hvQuote]
  · intro conv cond h1 h2
    simp only [simpleEvaluate, split2_of_noPair '=' '=' cond h1,
      split2_of_noPair '!' '=' cond h2]

instance (l : List Char) : Decidable (plainTok l) := by
  unfold plainTok
  infer_instance

/-- Session for the C7 witness, with flag stored as on. -/
def convC7 : Conv :=
  ⟨1, 2, 0, gs "f", gs "s1", .waiting, [(gs "flag", .str (gs "on"))], 0, 0, 0, 100, []⟩

/-- Witness for C7 at a concrete condition over concrete session data. -/
theorem c7_witness :
    simpleEvaluate convC7
        (gs "data.flag" ++ ' ' :: '=' :: '=' :: ' ' :: '"' :: (gs "on" ++ ['"']))
      = (convGetString convC7 (goTrimPfx (gs "data.") (gs "data.flag")) == gs "on") ∧
    simpleEvaluate convC7 (gs "weird expr") = true :=
  ⟨c7_simple_evaluate_builtin.2.1 convC7 (gs "data.flag") (gs "on") (by decide) (by decide),
   c7_simple_evaluate_builtin.2.2.2 convC7 (gs "weird expr") (by decide) (by decide)⟩
